import Mathlib

/-!
Verification of the release-workflow tool (`src/unnamed/part_000` entry point and
`src/version_manager/manager.js`, class `VersionManager`) against its
natural-language specification.

The development shallowly embeds:
* the changelog merge of `updateChangeLog` (JS `String.indexOf` / `slice`
  modelled over `List Char`);
* the commit-message formatter `getFormattedVersionMessage` (dates as
  milliseconds since the Unix epoch, `Date.toISOString().substring(0, 10)`
  as a Gregorian calendar computation);
* the `semver` dependency (`semver.inc` for the five bump kinds used by
  `proposeNextVersions`, strict parsing, rendering, and precedence order);
* the `create()` orchestration as a sequential effect-accumulating pipeline
  with an explicit exception channel (`process.exit` and thrown errors are
  distinguished, mirroring that `process.exit` bypasses the `catch` block).
-/

/-! ## JS string primitives over `List Char` -/

/-- `takeEq pat l` is true when `pat` is an initial segment of `l`. -/
def takeEq : List Char → List Char → Bool
  | [], _ => true
  | _ :: _, [] => false
  | a :: as, b :: bs => a = b && takeEq as bs

/-- Index of the first occurrence of `pat` in `l`, if any
(JS `String.indexOf` with `-1` mapped to `none`). -/
def firstIdx (pat : List Char) : List Char → Option Nat
  | [] => if takeEq pat [] then some 0 else none
  | x :: t => if takeEq pat (x :: t) then some 0 else (firstIdx pat t).map (· + 1)

/-- JS `s.indexOf(pat)`: first occurrence index, `-1` when absent. -/
def jsIndexOf (s pat : String) : Int :=
  match firstIdx pat.data s.data with
  | some n => (n : Int)
  | none => -1

/-- The two-newline separator terminating the changelog title block. -/
def nl2 : List Char := ['\n', '\n']

/-- The merge computation of `updateChangeLog`
(`manager.js` lines 57–62): `endOfTitleBlock = indexOf("\n\n") + 2`,
`head = slice(0, endOfTitleBlock)`, `logs = slice(endOfTitleBlock)`,
result `head ++ body ++ logs`. -/
def mergeChangelog (changelogContent newVersionMessage : String) : String :=
  let endOfTitleBlock : Int := jsIndexOf changelogContent "\n\n" + 2
  let head := String.mk (changelogContent.data.take endOfTitleBlock.toNat)
  let logs := String.mk (changelogContent.data.drop endOfTitleBlock.toNat)
  head ++ newVersionMessage ++ logs

/-! ## Release-note formatting (`getFormattedVersionMessage`, lines 75–101)

Commit dates are modelled as milliseconds since the Unix epoch (the value of
`new Date(commit.date)` for the date strings the source-control adapter
returns). `new Date()` (the current clock) is an explicit parameter `now`. -/

/-- A commit as consumed by `getFormattedVersionMessage`: its message and its
timestamp in milliseconds since the Unix epoch. -/
structure Commit where
  message : String
  date : Nat
deriving DecidableEq

/-- Zero-pad a month or day number to two digits. -/
def pad2 (n : Nat) : String :=
  if n < 10 then "0" ++ toString n else toString n

/-- Zero-pad a year number to four digits (the `toISOString` year format for
years 0–9999; the tool only ever formats commit timestamps, all of which fall
in that range). -/
def padYear (n : Nat) : String :=
  if n < 10 then "000" ++ toString n
  else if n < 100 then "00" ++ toString n
  else if n < 1000 then "0" ++ toString n
  else toString n

/-- `new Date(ms).toISOString().substring(0, 10)`: the proleptic-Gregorian
calendar date (UTC) of a timestamp at or after the epoch, printed
`YYYY-MM-DD`. Uses the standard era-based civil-from-days computation. -/
def isoDateOfMillis (ms : Nat) : String :=
  let days := ms / 86400000
  let z := days + 719468
  let era := z / 146097
  let doe := z % 146097
  let yoe := (doe - doe / 1460 + doe / 36524 - doe / 146096) / 365
  let doy := doe - (365 * yoe + yoe / 4 - yoe / 100)
  let mp := (5 * doy + 2) / 153
  let d := doy - (153 * mp + 2) / 5 + 1
  let m := if mp < 10 then mp + 3 else mp - 9
  let y := if m ≤ 2 then yoe + era * 400 + 1 else yoe + era * 400
  padYear y ++ "-" ++ pad2 m ++ "-" ++ pad2 d

/-- The date accumulation of `getFormattedVersionMessage` (lines 85–93):
`dates.from` starts at `new Date()` (the current time `now`), `dates.to`
starts at `new Date(0)` (the epoch), and each commit lowers `from` or raises
`to`. The source performs this inside the `map` over `commits.all`; the fold
is the same left-to-right traversal. -/
def foldDates (commits : List Commit) (init : Nat × Nat) : Nat × Nat :=
  commits.foldl
    (fun dates c =>
      (if c.date < dates.1 then c.date else dates.1,
       if dates.2 < c.date then c.date else dates.2))
    init

/-- `getFormattedVersionMessage` (lines 75–101), as a pure function of the
current time, the chosen version string, and the commit list returned by the
log query: title `- <version> [ <dateFrom> – <dateTo> ]`, a newline, then one
line `    -<message>` per commit joined by newlines. -/
def getFormattedVersionMessage (now : Nat) (newVersion : String)
    (commits : List Commit) : String :=
  let dates := foldDates commits (now, 0)
  let formattedMessages := commits.map Commit.message
  let dateFrom := isoDateOfMillis dates.1
  let dateTo := isoDateOfMillis dates.2
  let title := "- " ++ newVersion ++ " [ " ++ dateFrom ++ " – " ++ dateTo ++ " ]"
  let body := String.intercalate "\n" (formattedMessages.map (fun m => "    -" ++ m))
  title ++ "\n" ++ body

/-! ## The `semver` dependency (node-semver, as used by `proposeNextVersions`)

`semver.inc(version, release, identifier)` parses the version with the strict
grammar (returning `null` on failure), mutates the parsed structure per the
release kind, and re-renders it. -/

/-- A prerelease identifier: node-semver stores an all-digit identifier below
`Number.MAX_SAFE_INTEGER` as a number and every other identifier as a
string. -/
inductive PreId
  | num (n : Nat)
  | str (s : String)
deriving DecidableEq

/-- A parsed semantic version. Build metadata is validated during parsing but
not stored (it takes no part in ordering or rendering). -/
structure SemVer where
  major : Nat
  minor : Nat
  patch : Nat
  prerelease : List PreId
deriving DecidableEq

/-- Three-way comparison of numbers (`a === b ? 0 : a < b ? -1 : 1`). -/
def natCmp (a b : Nat) : Ordering :=
  if a < b then Ordering.lt else if b < a then Ordering.gt else Ordering.eq

/-- Lexicographic comparison of character lists by code point. -/
def charListCmp : List Char → List Char → Ordering
  | [], [] => Ordering.eq
  | [], _ :: _ => Ordering.lt
  | _ :: _, [] => Ordering.gt
  | a :: as, b :: bs => (natCmp a.toNat b.toNat).then (charListCmp as bs)

/-- Three-way comparison of identifier strings (JS `<` on ASCII strings is
lexicographic by code unit). -/
def strCmp (a b : String) : Ordering :=
  charListCmp a.data b.data

/-- node-semver `compareIdentifiers`: numeric identifiers compare numerically
and order below alphanumeric ones; alphanumeric identifiers compare as
strings. -/
def idCmp : PreId → PreId → Ordering
  | PreId.num a, PreId.num b => natCmp a b
  | PreId.num _, PreId.str _ => Ordering.lt
  | PreId.str _, PreId.num _ => Ordering.gt
  | PreId.str a, PreId.str b => strCmp a b

/-- Pairwise prerelease comparison once both versions are known to have a
prerelease: a shorter list that is a prefix orders first. -/
def cmpPreRest : List PreId → List PreId → Ordering
  | [], [] => Ordering.eq
  | [], _ :: _ => Ordering.lt
  | _ :: _, [] => Ordering.gt
  | a :: as, b :: bs => (idCmp a b).then (cmpPreRest as bs)

/-- node-semver `comparePre`: a version with a prerelease orders before the
same core version without one. -/
def cmpPre : List PreId → List PreId → Ordering
  | [], [] => Ordering.eq
  | [], _ :: _ => Ordering.gt
  | _ :: _, [] => Ordering.lt
  | a :: as, b :: bs => (idCmp a b).then (cmpPreRest as bs)

/-- node-semver `compareMain`: major, then minor, then patch. -/
def compareMain (v w : SemVer) : Ordering :=
  (natCmp v.major w.major).then
    ((natCmp v.minor w.minor).then (natCmp v.patch w.patch))

/-- node-semver `compare`: main triple, then prerelease. -/
def compareSemVer (v w : SemVer) : Ordering :=
  (compareMain v w).then (cmpPre v.prerelease w.prerelease)

/-- Strict semantic-version precedence. -/
def ltSemVer (v w : SemVer) : Prop :=
  compareSemVer v w = Ordering.lt

instance (v w : SemVer) : Decidable (ltSemVer v w) := by
  unfold ltSemVer
  infer_instance

/-- `Number.MAX_SAFE_INTEGER`. -/
def maxSafeInteger : Nat := 9007199254740991

/-- The identifier character class `[0-9a-zA-Z-]`. -/
def isIdChar (c : Char) : Bool := c.isDigit || c.isAlpha || c = '-'

/-- The strict numeric-component grammar `0|[1-9]\d*` (no leading zeros). -/
def numericStr : List Char → Bool
  | [] => false
  | '0' :: cs => cs.isEmpty
  | c :: cs => c.isDigit && cs.all Char.isDigit

/-- Decimal value of a digit run. -/
def digitsToNat (l : List Char) : Nat :=
  l.foldl (fun a c => a * 10 + (c.toNat - '0'.toNat)) 0

/-- Split at the first occurrence of `c`: the part before it and, when `c`
occurs, the part after it. -/
def splitFirstOn (c : Char) (l : List Char) : List Char × Option (List Char) :=
  match l.findIdx? (· = c) with
  | some i => (l.take i, some (l.drop (i + 1)))
  | none => (l, none)

/-- Split on every occurrence of `c` (JS `String.split`). -/
def splitOnChar (c : Char) : List Char → List (List Char)
  | [] => [[]]
  | x :: xs =>
    let r := splitOnChar c xs
    if x = c then [] :: r
    else
      match r with
      | h :: t => (x :: h) :: t
      | [] => [[x]]

/-- A `major`/`minor`/`patch` component: strict numeric grammar, at most
`MAX_SAFE_INTEGER`. -/
def parseNumComponent (l : List Char) : Option Nat :=
  if numericStr l && digitsToNat l ≤ maxSafeInteger then some (digitsToNat l)
  else none

/-- One prerelease identifier: numeric (no leading zeros, stored as a number
below `MAX_SAFE_INTEGER`, as a string at or above it) or alphanumeric (at
least one non-digit, all characters in `[0-9a-zA-Z-]`). -/
def preIdParse (l : List Char) : Option PreId :=
  if numericStr l then
    some (if digitsToNat l < maxSafeInteger then PreId.num (digitsToNat l)
          else PreId.str (String.mk l))
  else if !l.isEmpty && l.all isIdChar && l.any (fun c => !c.isDigit) then
    some (PreId.str (String.mk l))
  else none

/-- One build-metadata identifier: nonempty, all characters in
`[0-9a-zA-Z-]`. -/
def buildIdOk (l : List Char) : Bool := !l.isEmpty && l.all isIdChar

/-- JS `String.prototype.trim`: strip leading and trailing whitespace. -/
def jsTrimChars (l : List Char) : List Char :=
  ((l.dropWhile Char.isWhitespace).reverse.dropWhile Char.isWhitespace).reverse

/-- node-semver strict parsing (`new SemVer(version)`, reached through the
functional `semver.inc` wrapper whose `try/catch` turns every parse failure
into `null`): 256-character limit on the raw string, trim, then the strict
`major.minor.patch[-prerelease][+build]` grammar. -/
def parseSemVer (version : String) : Option SemVer :=
  if version.data.length > 256 then none
  else
    let l := jsTrimChars version.data
    let corePlusBuild := splitFirstOn '+' l
    let coreAndPre := splitFirstOn '-' corePlusBuild.1
    let buildOk : Bool :=
      match corePlusBuild.2 with
      | none => true
      | some bl => (splitOnChar '.' bl).all buildIdOk
    if buildOk then
      match (splitOnChar '.' coreAndPre.1).map parseNumComponent with
      | [some vmajor, some vminor, some vpatch] =>
        match coreAndPre.2 with
        | none => some ⟨vmajor, vminor, vpatch, []⟩
        | some pl =>
          match (splitOnChar '.' pl).mapM preIdParse with
          | some ids => some ⟨vmajor, vminor, vpatch, ids⟩
          | none => none
      | _ => none
    else none

/-- Rendering of one prerelease identifier. -/
def renderPreId : PreId → String
  | PreId.num n => toString n
  | PreId.str s => s

/-- `SemVer.prototype.format`: `major.minor.patch`, then `-` and the
dot-joined prerelease identifiers when a prerelease is present. -/
def renderSemVer (v : SemVer) : String :=
  toString v.major ++ "." ++ toString v.minor ++ "." ++ toString v.patch ++
    (if v.prerelease.isEmpty then ""
     else "-" ++ String.intercalate "." (v.prerelease.map renderPreId))

/-- `inc('patch')`: drop the prerelease; bump the patch number only when
there was no prerelease. -/
def incPatch (v : SemVer) : SemVer :=
  if v.prerelease = [] then { v with patch := v.patch + 1, prerelease := [] }
  else { v with prerelease := [] }

/-- `inc('minor')`: bump minor unless this is a pre-minor version (patch `0`
with a prerelease); patch and prerelease reset. -/
def incMinor (v : SemVer) : SemVer :=
  if v.patch ≠ 0 ∨ v.prerelease = [] then
    { v with minor := v.minor + 1, patch := 0, prerelease := [] }
  else { v with patch := 0, prerelease := [] }

/-- `inc('major')`: bump major unless this is a pre-major version (minor and
patch `0` with a prerelease); minor, patch and prerelease reset. -/
def incMajor (v : SemVer) : SemVer :=
  if v.minor ≠ 0 ∨ v.patch ≠ 0 ∨ v.prerelease = [] then
    { v with major := v.major + 1, minor := 0, patch := 0, prerelease := [] }
  else { v with minor := 0, patch := 0, prerelease := [] }

/-- The numeric part of the `pre` step: increment the rightmost numeric
identifier; `none` when no identifier is numeric. -/
def bumpLastNum : List PreId → Option (List PreId)
  | [] => none
  | x :: xs =>
    match bumpLastNum xs with
    | some ys => some (x :: ys)
    | none =>
      match x with
      | PreId.num n => some (PreId.num (n + 1) :: xs)
      | PreId.str _ => none

/-- `!isNaN(Number(id))` for an identifier string over `[0-9a-zA-Z-]`:
`Number` accepts digit runs with an optional `e`/`E` exponent (itself
optionally negative), hexadecimal `0x`/`0X` literals (unsigned only), and
`Infinity`, each of the non-hex forms optionally preceded by one minus
sign. -/
def mantissaExp (l : List Char) : Bool :=
  match l.findIdx? (fun c => c = 'e' || c = 'E') with
  | none => !l.isEmpty && l.all Char.isDigit
  | some i =>
    let m := l.take i
    let e := l.drop (i + 1)
    let e2 := match e with
      | '-' :: r => r
      | r => r
    (!m.isEmpty && m.all Char.isDigit) && (!e2.isEmpty && e2.all Char.isDigit)

/-- See `mantissaExp`; the hex digit class. -/
def isHexDigit (c : Char) : Bool :=
  c.isDigit || ('a' ≤ c && c ≤ 'f') || ('A' ≤ c && c ≤ 'F')

/-- `Number(s)` is not `NaN`, for `s` over the identifier character class. -/
def jsNumericLiteral (s : String) : Bool :=
  match s.data with
  | '0' :: 'x' :: ds => !ds.isEmpty && ds.all isHexDigit
  | '0' :: 'X' :: ds => !ds.isEmpty && ds.all isHexDigit
  | '-' :: rest => decide (rest = "Infinity".data) || mantissaExp rest
  | l => decide (l = "Infinity".data) || mantissaExp l

/-- The `pre` step of `SemVer.inc` with a target identifier (the tool always
passes `"alpha"` or `"beta"`): an empty prerelease becomes `[0]`; otherwise
the rightmost numeric identifier is incremented, appending `0` when none
exists. Then, unless the first identifier equals the target and the second is
numeric under JS `isNaN`, the whole prerelease is replaced by
`[identifier, 0]`. -/
def incPreWithId (id : String) (pre : List PreId) : List PreId :=
  let p := if pre = [] then [PreId.num 0]
    else
      match bumpLastNum pre with
      | some q => q
      | none => pre ++ [PreId.num 0]
  match p with
  | [] => [PreId.str id, PreId.num 0]
  | f :: rest =>
    if idCmp f (PreId.str id) = Ordering.eq then
      match rest with
      | PreId.num _ :: _ => p
      | PreId.str s :: _ =>
        if jsNumericLiteral s then p else [PreId.str id, PreId.num 0]
      | [] => p
    else [PreId.str id, PreId.num 0]

/-- `inc('prerelease', id)`: on a version without a prerelease, first
`inc('patch')`, then the `pre` step; otherwise just the `pre` step. -/
def incPrerelease (id : String) (v : SemVer) : SemVer :=
  if v.prerelease = [] then
    let v' := incPatch v
    { v' with prerelease := incPreWithId id v'.prerelease }
  else { v with prerelease := incPreWithId id v.prerelease }

/-- The functional `semver.inc` wrapper: parse (any failure yields `null`),
bump, re-render. -/
def semverIncWith (f : SemVer → SemVer) (version : String) : Option String :=
  (parseSemVer version).map (fun v => renderSemVer (f v))

/-- The record returned by `VersionManager.proposeNextVersions`
(lines 115–123). -/
structure NextVersions where
  nextAlpha : Option String
  nextBeta : Option String
  nextPatch : Option String
  nextFeature : Option String
  nextMajor : Option String
deriving DecidableEq

/-- `VersionManager.proposeNextVersions` (lines 115–123): the five
`semver.inc` candidates. -/
def proposeNextVersions (currentVersion : String) : NextVersions :=
  { nextAlpha := semverIncWith (incPrerelease "alpha") currentVersion
    nextBeta := semverIncWith (incPrerelease "beta") currentVersion
    nextPatch := semverIncWith incPatch currentVersion
    nextFeature := semverIncWith incMinor currentVersion
    nextMajor := semverIncWith incMajor currentVersion }

/-- `Object.values(this.proposeNextVersions(currentVersion))` in field
order, as presented by the selection prompt. -/
def nextVersionChoices (n : NextVersions) : List (Option String) :=
  [n.nextAlpha, n.nextBeta, n.nextPatch, n.nextFeature, n.nextMajor]

/-! ## The `create()` orchestration

Each method of `VersionManager` becomes a function returning the list of
side effects it performs together with an `Except` result. `process.exit(1)`
(`Stop.exited`) is distinguished from a thrown error (`Stop.threw`) because
`process.exit` terminates the process at once and never reaches the `catch`
block of `create`. Operator behaviour (prompt answers) and collaborator data
(file contents, repository state, the clock) are an explicit environment. -/

/-- An observable side effect of a run. -/
inductive Eff
  | writeFile (path content : String)
  | gitAdd (pathspec : String)
  | gitCommit (msg : String)
  | gitTag (tagName : String)
  | gitStash
  | gitPush (remote branch : String)
  | consoleLog (msg : String)
  | consoleError (msg : String)
deriving DecidableEq

/-- The errors thrown after the precondition check (named per the
specification's taxonomy; the last corresponds to the `TypeError` Node's
`fs.writeFile` raises when handed `null` instead of a string). -/
inductive Err
  | versionFileRead
  | changelogFileRead
  | noRemotes
  | pushCancelled
  | writeTypeError
deriving DecidableEq

/-- Why a step sequence stopped early. -/
inductive Stop
  | exited (code : Nat)
  | threw (e : Err)
deriving DecidableEq

/-- The terminal state of a run. -/
inductive Outcome
  | completed
  | failed (e : Err)
  | exited (code : Nat)
deriving DecidableEq

/-- The error text reported for each thrown error (`manager.js` lines 156,
200; the read/write failures carry Node's own messages, abstracted here). -/
def errMessage : Err → String
  | Err.versionFileRead => "version file could not be read"
  | Err.changelogFileRead => "changelog file could not be read"
  | Err.noRemotes => "No git remotes found."
  | Err.pushCancelled => "Cancel in push step"
  | Err.writeTypeError => "data argument must be of type string"

/-- JS template-literal interpolation of a possibly-`null` string. -/
def jsStr : Option String → String
  | some s => s
  | none => "null"

/-- Constructor options (`options_default` merged with the caller's
options, lines 8–20). -/
structure Opts where
  file_version : String
  file_changelog : String
  dry_run : Bool
deriving DecidableEq

/-- The defaults of `options_default` (lines 8–12). -/
def options_default : Opts :=
  { file_version := "version.txt", file_changelog := "changes.md", dry_run := false }

/-- The run environment: collaborator data and the operator's prompt
behaviour. `logFrom t` is the commit list of `git.log({from: t, to: "HEAD"})`
and `logAll` that of `git.log()`; `chooseVersion` is the selection the
operator makes from the presented candidate list; `selectRemotes` the
checked subset of the remote multi-select; `editMessage` the text the
operator leaves in the editor given its default content. -/
structure Env where
  now : Nat
  versionFileContent : Option String
  changelogContent : Option String
  statusFiles : List String
  currentBranch : String
  remotes : List String
  tagsLatest : Option String
  logFrom : String → List Commit
  logAll : List Commit
  diffText : String
  chooseVersion : List (Option String) → Option String
  editMessage : String → String
  selectRemotes : List String → List String
  confirmPush : Bool

/-- Sequencing of effectful steps: effects accumulate in order; an early
stop propagates and keeps the effects performed so far. -/
def seqE {α β : Type} (x : List Eff × Except Stop α)
    (f : α → List Eff × Except Stop β) : List Eff × Except Stop β :=
  match x with
  | (effs, Except.ok a) => (effs ++ (f a).1, (f a).2)
  | (effs, Except.error s) => (effs, Except.error s)

/-- `checkForUncommittedChanges` (lines 204–216): with a non-empty status
list, report-only under dry-run, otherwise print an error and
`process.exit(1)`. -/
def checkForUncommittedChanges (env : Env) (o : Opts) : List Eff × Except Stop Unit :=
  if env.statusFiles.length ≠ 0 then
    if o.dry_run then
      ([Eff.consoleLog "Dry run: Would check for uncommitted changes."], Except.ok ())
    else
      ([Eff.consoleError
          "Error: There are uncommitted changes. Please commit or stash them before running this script."],
        Except.error (Stop.exited 1))
  else ([], Except.ok ())

/-- `getVersionFromFile` (lines 40–43): read and trim the version file; an
unreadable file rejects. -/
def getVersionFromFile (env : Env) : List Eff × Except Stop String :=
  match env.versionFileContent with
  | some data => ([], Except.ok (String.mk (jsTrimChars data.data)))
  | none => ([], Except.error (Stop.threw Err.versionFileRead))

/-- `promptNewVersion` (lines 103–113): present
`Object.values(proposeNextVersions(currentVersion))` and return the
operator's selection. -/
def promptNewVersion (env : Env) (currentVersion : String) :
    List Eff × Except Stop (Option String) :=
  ([], Except.ok (env.chooseVersion (nextVersionChoices (proposeNextVersions currentVersion))))

/-- Lines 76–83 of `getFormattedVersionMessage`: the commit range is bounded
by the latest tag when one exists. -/
def commitsForLog (env : Env) : List Commit :=
  match env.tagsLatest with
  | some t => env.logFrom t
  | none => env.logAll

/-- The effectful wrapper of `getFormattedVersionMessage` inside `create`:
the chosen version (possibly `null`) is interpolated into the title. -/
def getFormattedVersionMessageM (env : Env) (newVersion : Option String) :
    List Eff × Except Stop String :=
  ([], Except.ok (getFormattedVersionMessage env.now (jsStr newVersion) (commitsForLog env)))

/-- `promptEditMessages` (lines 125–136): the operator edits the generated
text. -/
def promptEditMessages (env : Env) (messagesString : String) :
    List Eff × Except Stop String :=
  ([], Except.ok (env.editMessage messagesString))

/-- `updateChangeLog` (lines 55–73): read the changelog, merge, and either
print the 1000-character preview of the original content (dry-run) or write
the merged document. -/
def updateChangeLog (env : Env) (o : Opts) (newVersionMessage : String) :
    List Eff × Except Stop Unit :=
  match env.changelogContent with
  | none => ([], Except.error (Stop.threw Err.changelogFileRead))
  | some changelogContent =>
    let changelogNew := mergeChangelog changelogContent newVersionMessage
    let changelogShort := String.mk (changelogContent.data.take 1000)
    if o.dry_run then
      ([Eff.consoleLog
          ("Dry run: changelog preview: " ++ o.file_changelog ++ ":\n" ++ changelogShort)],
        Except.ok ())
    else ([Eff.writeFile o.file_changelog changelogNew], Except.ok ())

/-- `saveVersionToFile` (lines 45–53): report under dry-run, otherwise write
the version; `fs.writeFile` rejects with a `TypeError` when the selected
version is `null`. -/
def saveVersionToFile (o : Opts) (version : Option String) :
    List Eff × Except Stop Unit :=
  if o.dry_run then
    ([Eff.consoleLog
        ("Dry run: Version would be saved as " ++ jsStr version ++ " to " ++ o.file_version)],
      Except.ok ())
  else
    match version with
    | some v => ([Eff.writeFile o.file_version v], Except.ok ())
    | none => ([], Except.error (Stop.threw Err.writeTypeError))

/-- `commitAndTagVersion` (lines 138–148): report under dry-run, otherwise
stage everything, commit `version <v>`, and tag `<v>`. -/
def commitAndTagVersion (o : Opts) (version : Option String) :
    List Eff × Except Stop Unit :=
  if o.dry_run then
    ([Eff.consoleLog
        ("Dry run: Git commit and tag for version " ++ jsStr version ++ " would be created.")],
      Except.ok ())
  else
    ([Eff.gitAdd ".", Eff.gitCommit ("version " ++ jsStr version), Eff.gitTag (jsStr version)],
      Except.ok ())

/-- `pushToRemote` (lines 150–202): throw with no remotes; otherwise log the
minimal diff, and on confirmation push each selected remote (report-only
under dry-run); a declined confirmation throws. -/
def pushToRemote (env : Env) (o : Opts) : List Eff × Except Stop Unit :=
  if env.remotes = [] then ([], Except.error (Stop.threw Err.noRemotes))
  else
    let remotesSelected := env.selectRemotes env.remotes
    let branch := env.currentBranch
    if env.confirmPush then
      (Eff.consoleLog env.diffText ::
          (remotesSelected.map (fun remote =>
            if o.dry_run then
              [Eff.consoleLog
                  ("Dry run: Changes would be pushed to remote " ++ remote ++
                    " on branch " ++ branch)]
            else
              [Eff.gitPush remote branch,
                Eff.consoleLog
                  ("Pushed to remote " ++ remote ++ " on branch " ++ branch ++
                    " successfully.")])).flatten,
        Except.ok ())
    else ([Eff.consoleLog env.diffText], Except.error (Stop.threw Err.pushCancelled))

/-- `autoStash` (lines 218–225): report under dry-run, otherwise stash and
log. -/
def autoStash (_env : Env) (o : Opts) : List Eff × Except Stop Unit :=
  if o.dry_run then
    ([Eff.consoleLog "Dry run: Uncommitted changes would be stashed."], Except.ok ())
  else ([Eff.gitStash, Eff.consoleLog "Uncommitted changes have been stashed."], Except.ok ())

/-- The `try` block of `create` (lines 24–33), in source order. -/
def createBody (env : Env) (o : Opts) : List Eff × Except Stop Unit :=
  seqE (checkForUncommittedChanges env o) fun _ =>
  seqE (getVersionFromFile env) fun currentVersion =>
  seqE (promptNewVersion env currentVersion) fun newVersion =>
  seqE (getFormattedVersionMessageM env newVersion) fun messagesString =>
  seqE (promptEditMessages env messagesString) fun messagesStringFinal =>
  seqE (updateChangeLog env o messagesStringFinal) fun _ =>
  seqE (saveVersionToFile o newVersion) fun _ =>
  seqE (commitAndTagVersion o newVersion) fun _ =>
  seqE (pushToRemote env o) fun _ =>
  ([Eff.consoleLog "Done!"], Except.ok ())

/-- `create` (lines 22–38): run the body; a thrown error is caught once,
`autoStash` runs, and the error is reported as text; `process.exit` ends the
process directly. -/
def create (env : Env) (o : Opts) : List Eff × Outcome :=
  match createBody env o with
  | (effs, Except.ok _) => (effs, Outcome.completed)
  | (effs, Except.error (Stop.exited n)) => (effs, Outcome.exited n)
  | (effs, Except.error (Stop.threw e)) =>
    (effs ++ (autoStash env o).1 ++ [Eff.consoleError ("Error: " ++ errMessage e)],
      Outcome.failed e)

/-- Effects that mutate the Version Store, the Changelog Store, or the
repository (writes, staging, commit, tag, stash, push). -/
def isMutating : Eff → Bool
  | Eff.writeFile _ _ => true
  | Eff.gitAdd _ => true
  | Eff.gitCommit _ => true
  | Eff.gitTag _ => true
  | Eff.gitStash => true
  | Eff.gitPush _ _ => true
  | Eff.consoleLog _ => false
  | Eff.consoleError _ => false

/-- A concrete environment used to instantiate the universally quantified
theorems: clean status, readable files, one remote, an operator that picks
the patch candidate, keeps the note unchanged, selects every remote and
confirms the push. -/
def envDemo : Env :=
  { now := 86400000
    versionFileContent := some "1.2.3"
    changelogContent := some "# Title\n\nOld entry\n"
    statusFiles := []
    currentBranch := "main"
    remotes := ["origin"]
    tagsLatest := none
    logFrom := fun _ => []
    logAll := [⟨"fix bug", 0⟩]
    diffText := ""
    chooseVersion := fun choices => (choices.drop 2).headD none
    editMessage := fun s => s
    selectRemotes := fun rs => rs
    confirmPush := true }

/-! ## Basic lemmas about `takeEq` and `firstIdx` -/

theorem takeEq_length_le {pat l : List Char} (h : takeEq pat l = true) :
    pat.length ≤ l.length := by
  induction pat generalizing l with
  | nil => simp
  | cons a as ih =>
    cases l with
    | nil => simp [takeEq] at h
    | cons b bs =>
      simp only [takeEq, Bool.and_eq_true] at h
      simpa [Nat.succ_le_succ_iff] using ih h.2

theorem takeEq_eq_of_take_eq {pat q q' : List Char}
    (h : q.take pat.length = q'.take pat.length) :
    takeEq pat q = takeEq pat q' := by
  induction pat generalizing q q' with
  | nil => simp [takeEq]
  | cons a as ih =>
    cases q with
    | nil =>
      cases q' with
      | nil => rfl
      | cons c cs => simp at h
    | cons b bs =>
      cases q' with
      | nil => simp at h
      | cons c cs =>
        simp only [List.take, List.cons.injEq] at h
        simp only [takeEq, h.1, ih h.2]

/-- `takeEq pat (l.drop j)` depends only on the first `j + pat.length`
elements of `l`. -/
theorem takeEq_drop_congr {pat l l' : List Char} {j m : Nat}
    (hm : l.take m = l'.take m) (hj : j + pat.length ≤ m) :
    takeEq pat (l.drop j) = takeEq pat (l'.drop j) := by
  apply takeEq_eq_of_take_eq
  have h1 : (l.drop j).take pat.length = (l.take (j + pat.length)).drop j := by
    rw [List.drop_take, Nat.add_sub_cancel_left]
  have h2 : (l'.drop j).take pat.length = (l'.take (j + pat.length)).drop j := by
    rw [List.drop_take, Nat.add_sub_cancel_left]
  rw [h1, h2]
  have h3 : l.take (j + pat.length) = l'.take (j + pat.length) := by
    have h4 := congrArg (List.take (j + pat.length)) hm
    rwa [List.take_take, List.take_take, Nat.min_eq_left hj] at h4
  rw [h3]

theorem firstIdx_spec {pat l : List Char} {i : Nat}
    (h : firstIdx pat l = some i) :
    takeEq pat (l.drop i) = true ∧ ∀ j < i, takeEq pat (l.drop j) = false := by
  induction l generalizing i with
  | nil =>
    simp only [firstIdx] at h
    split at h
    · rename_i ht
      cases h
      exact ⟨ht, by omega⟩
    · cases h
  | cons x t ih =>
    simp only [firstIdx] at h
    split at h
    · rename_i ht
      cases h
      exact ⟨ht, by omega⟩
    · rename_i ht
      rcases hopt : firstIdx pat t with _ | i'
      · rw [hopt] at h; cases h
      · rw [hopt] at h
        simp only [Option.map_some'] at h
        cases h
        obtain ⟨h1, h2⟩ := ih hopt
        refine ⟨h1, ?_⟩
        intro j hj
        cases j with
        | zero =>
          simp only [List.drop_zero]
          cases hb : takeEq pat (x :: t)
          · rfl
          · exact absurd hb ht
        | succ j' =>
          rw [List.drop_succ_cons]
          exact h2 j' (by omega)

theorem firstIdx_of_found {pat l : List Char} {i : Nat}
    (h1 : takeEq pat (l.drop i) = true)
    (h2 : ∀ j < i, takeEq pat (l.drop j) = false) :
    firstIdx pat l = some i := by
  induction l generalizing i with
  | nil =>
    cases i with
    | zero =>
      have h0 : takeEq pat [] = true := by simpa using h1
      simp [firstIdx, h0]
    | succ i' =>
      exfalso
      have hj := h2 0 (by omega)
      have h0 : takeEq pat ([] : List Char) = true := by simpa using h1
      simp only [List.drop_nil] at hj
      rw [h0] at hj
      cases hj
  | cons x t ih =>
    cases i with
    | zero =>
      have h0 : takeEq pat (x :: t) = true := by simpa using h1
      simp [firstIdx, h0]
    | succ i' =>
      have hx : takeEq pat (x :: t) = false := by simpa using h2 0 (by omega)
      have ht : firstIdx pat t = some i' := by
        apply ih
        · simpa using h1
        · intro j hj
          simpa using h2 (j + 1) (by omega)
      simp [firstIdx, hx, ht]

/-! ## Claims C1 and C10 (changelog merge, concrete and no-separator cases) -/

/-- C1 (counterexample): with Changelog Store `# Title\n\nOld entry\n` and the
edited release note `- 1.2.4 [ 2024-01-01 – 2024-01-02 ]\n    -fix bug`, the
merged document is NOT the spec's expected
`# Title\n\n- 1.2.4 [ 2024-01-01 – 2024-01-02 ]\n    -fix bug\nOld entry\n`:
the code inserts no newline between the note and the prior entries. -/
theorem c1_counterexample :
    mergeChangelog "# Title\n\nOld entry\n"
        "- 1.2.4 [ 2024-01-01 – 2024-01-02 ]\n    -fix bug" ≠
      "# Title\n\n- 1.2.4 [ 2024-01-01 – 2024-01-02 ]\n    -fix bug\nOld entry\n" := by
  decide

/-- C1 (amended): the merged document equals
`# Title\n\n- 1.2.4 [ 2024-01-01 – 2024-01-02 ]\n    -fix bugOld entry\n` —
the note is inserted directly after the title block with no separator added,
so its last line and the first old entry are joined on one line. -/
theorem c1_amended_merge_scenario :
    mergeChangelog "# Title\n\nOld entry\n"
        "- 1.2.4 [ 2024-01-01 – 2024-01-02 ]\n    -fix bug" =
      "# Title\n\n- 1.2.4 [ 2024-01-01 – 2024-01-02 ]\n    -fix bugOld entry\n" := by
  decide

/-- C10: when the changelog content has no `\n\n` separator, `updateChangeLog`
does not fail: `indexOf` yields `-1`, the split index is `1`, and the written
document is the first character of the file, then the release note, then the
remainder of the original content. -/
theorem c10_no_separator_split_at_one (content note : String)
    (h : firstIdx nl2 content.data = none) :
    mergeChangelog content note =
      String.mk (content.data.take 1) ++ note ++ String.mk (content.data.drop 1) := by
  unfold mergeChangelog jsIndexOf
  have : firstIdx "\n\n".data content.data = none := h
  rw [this]
  norm_num

/-! ## Claim C3 (merge is prefix-preserving) -/

theorem mergeChangelog_data_eq {content : String} {i : Nat}
    (h : firstIdx nl2 content.data = some i) (note : String) :
    (mergeChangelog content note).data =
      content.data.take (i + 2) ++ note.data ++ content.data.drop (i + 2) := by
  have hnl : ("\n\n" : String).data = nl2 := rfl
  unfold mergeChangelog jsIndexOf
  rw [hnl, h]
  have htn : ((i : Int) + 2).toNat = i + 2 := by omega
  simp only [htn]
  rfl

/-- C3: for every changelog content containing a blank-line separator `\n\n`
(first occurrence at index `i`) and every release note, the merge is
prefix-preserving: the first `\n\n` of the output is still at index `i`, the
title block (all characters up to and including that separator) is unchanged,
and the output is exactly title block, then the note, then the untouched prior
entries. -/
theorem c3_merge_prefix_preserving (content note : String) (i : Nat)
    (h : firstIdx nl2 content.data = some i) :
    firstIdx nl2 (mergeChangelog content note).data = some i ∧
      (mergeChangelog content note).data.take (i + 2) = content.data.take (i + 2) ∧
      (mergeChangelog content note).data =
        content.data.take (i + 2) ++ note.data ++ content.data.drop (i + 2) := by
  obtain ⟨hEq, hLt⟩ := firstIdx_spec h
  have hfit : nl2.length ≤ (content.data.drop i).length := takeEq_length_le hEq
  rw [List.length_drop] at hfit
  have hlen : i + 2 ≤ content.data.length := by
    have : nl2.length = 2 := rfl
    omega
  have hdata := mergeChangelog_data_eq h note
  have hTlen : (content.data.take (i + 2)).length = i + 2 := by
    rw [List.length_take]
    omega
  have hMtake : (mergeChangelog content note).data.take (i + 2) =
      content.data.take (i + 2) := by
    rw [hdata, List.append_assoc, List.take_append_eq_append_take, hTlen]
    simp only [Nat.sub_self, List.take_zero, List.append_nil]
    rw [List.take_take, Nat.min_self]
  refine ⟨?_, hMtake, hdata⟩
  apply firstIdx_of_found
  · have := @takeEq_drop_congr nl2 (mergeChangelog content note).data content.data
      i (i + 2) hMtake (by simp [nl2])
    rw [this]
    exact hEq
  · intro j hj
    have := @takeEq_drop_congr nl2 (mergeChangelog content note).data content.data
      j (i + 2) hMtake (by simp [nl2]; omega)
    rw [this]
    exact hLt j hj

/-- C3 witness at a concrete changelog and note. -/
theorem c3_witness :
    firstIdx nl2 ("# T\n\nE\n" : String).data = some 3 ∧
      (firstIdx nl2 (mergeChangelog "# T\n\nE\n" "N").data = some 3 ∧
        (mergeChangelog "# T\n\nE\n" "N").data.take (3 + 2) =
          ("# T\n\nE\n" : String).data.take (3 + 2) ∧
        (mergeChangelog "# T\n\nE\n" "N").data =
          ("# T\n\nE\n" : String).data.take (3 + 2) ++ ("N" : String).data ++
            ("# T\n\nE\n" : String).data.drop (3 + 2)) :=
  ⟨by decide, c3_merge_prefix_preserving "# T\n\nE\n" "N" 3 (by decide)⟩

theorem foldDates_fst (cs : List Commit) (a b : Nat) :
    ((foldDates cs (a, b)).1 = a ∨ (foldDates cs (a, b)).1 ∈ cs.map Commit.date) ∧
      (foldDates cs (a, b)).1 ≤ a ∧
      ∀ d ∈ cs.map Commit.date, (foldDates cs (a, b)).1 ≤ d := by
  induction cs generalizing a b with
  | nil => simp [foldDates]
  | cons c cs ih =>
    have hstep : foldDates (c :: cs) (a, b) =
        foldDates cs (if c.date < a then c.date else a, if b < c.date then c.date else b) := rfl
    rw [hstep]
    obtain ⟨h1, h2, h3⟩ :=
      ih (if c.date < a then c.date else a) (if b < c.date then c.date else b)
    by_cases hca : c.date < a
    · simp only [if_pos hca] at h1 h2 h3 ⊢
      refine ⟨?_, by omega, ?_⟩
      · rcases h1 with h | h
        · right; simp [h]
        · right; simp [h]
      · intro d hd
        simp only [List.map_cons, List.mem_cons] at hd
        rcases hd with rfl | hd
        · omega
        · exact h3 d hd
    · simp only [if_neg hca] at h1 h2 h3 ⊢
      refine ⟨?_, h2, ?_⟩
      · rcases h1 with h | h
        · left; exact h
        · right; simp [h]
      · intro d hd
        simp only [List.map_cons, List.mem_cons] at hd
        rcases hd with rfl | hd
        · omega
        · exact h3 d hd

theorem foldDates_snd (cs : List Commit) (a b : Nat) :
    ((foldDates cs (a, b)).2 = b ∨ (foldDates cs (a, b)).2 ∈ cs.map Commit.date) ∧
      b ≤ (foldDates cs (a, b)).2 ∧
      ∀ d ∈ cs.map Commit.date, d ≤ (foldDates cs (a, b)).2 := by
  induction cs generalizing a b with
  | nil => simp [foldDates]
  | cons c cs ih =>
    have hstep : foldDates (c :: cs) (a, b) =
        foldDates cs (if c.date < a then c.date else a, if b < c.date then c.date else b) := rfl
    rw [hstep]
    obtain ⟨h1, h2, h3⟩ :=
      ih (if c.date < a then c.date else a) (if b < c.date then c.date else b)
    by_cases hbc : b < c.date
    · simp only [if_pos hbc] at h1 h2 h3 ⊢
      refine ⟨?_, by omega, ?_⟩
      · rcases h1 with h | h
        · right; simp [h]
        · right; simp [h]
      · intro d hd
        simp only [List.map_cons, List.mem_cons] at hd
        rcases hd with rfl | hd
        · omega
        · exact h3 d hd
    · simp only [if_neg hbc] at h1 h2 h3 ⊢
      refine ⟨?_, h2, ?_⟩
      · rcases h1 with h | h
        · left; exact h
        · right; simp [h]
      · intro d hd
        simp only [List.map_cons, List.mem_cons] at hd
        rcases hd with rfl | hd
        · omega
        · exact h3 d hd

/-! ## Claim C6 (release-note format) -/

/-- C6 (counterexample): the dates in the title are NOT always the earliest
and latest commit timestamps of the set. The `from` accumulator is seeded
with the current clock time, so a commit dated after `now` (here `now` is the
epoch and the single commit is one day later) makes the printed `from` date
the clock date, not a commit date. -/
theorem c6_counterexample_future_commit :
    getFormattedVersionMessage 0 "1.0.0" [⟨"fix", 86400000⟩] =
        "- 1.0.0 [ 1970-01-01 – 1970-01-02 ]\n    -fix" ∧
      getFormattedVersionMessage 0 "1.0.0" [⟨"fix", 86400000⟩] ≠
        "- 1.0.0 [ 1970-01-02 – 1970-01-02 ]\n    -fix" := by
  constructor
  · decide
  · decide

/-- C6 (amended): provided no commit of the (non-empty) set is dated after
the current time `now`, `getFormattedVersionMessage` returns exactly the
title `- <version> [ <earliest-date> – <latest-date> ]` (UTC `YYYY-MM-DD`
of the earliest and latest commit timestamps of the set), joined by a single
newline to one line per commit of four spaces then a dash immediately
followed by the commit message. -/
theorem c6_amended_format (now : Nat) (v : String) (cs : List Commit)
    (hne : cs ≠ []) (hle : ∀ c ∈ cs, c.date ≤ now) :
    ((foldDates cs (now, 0)).1 ∈ cs.map Commit.date ∧
        ∀ d ∈ cs.map Commit.date, (foldDates cs (now, 0)).1 ≤ d) ∧
      ((foldDates cs (now, 0)).2 ∈ cs.map Commit.date ∧
        ∀ d ∈ cs.map Commit.date, d ≤ (foldDates cs (now, 0)).2) ∧
      getFormattedVersionMessage now v cs =
        "- " ++ v ++ " [ " ++ isoDateOfMillis (foldDates cs (now, 0)).1 ++ " – " ++
          isoDateOfMillis (foldDates cs (now, 0)).2 ++ " ]" ++ "\n" ++
          String.intercalate "\n" (cs.map (fun c => "    -" ++ c.message)) := by
  obtain ⟨f1, f2, f3⟩ := foldDates_fst cs now 0
  obtain ⟨g1, g2, g3⟩ := foldDates_snd cs now 0
  refine ⟨⟨?_, f3⟩, ⟨?_, g3⟩, ?_⟩
  · rcases f1 with h | h
    · cases cs with
      | nil => exact absurd rfl hne
      | cons c0 cs' =>
        have hd0 : c0.date ∈ (c0 :: cs').map Commit.date := by simp
        have hf := f3 _ hd0
        have hc0 : c0.date ≤ now := hle c0 (by simp)
        have heq : (foldDates (c0 :: cs') (now, 0)).1 = c0.date := by omega
        rw [heq]
        exact hd0
    · exact h
  · rcases g1 with h | h
    · cases cs with
      | nil => exact absurd rfl hne
      | cons c0 cs' =>
        have hd0 : c0.date ∈ (c0 :: cs').map Commit.date := by simp
        have hg := g3 _ hd0
        have heq : (foldDates (c0 :: cs') (now, 0)).2 = c0.date := by omega
        rw [heq]
        exact hd0
    · exact h
  · simp only [getFormattedVersionMessage, List.map_map]
    rfl

/-- C6 witness at a concrete non-empty commit set with past timestamps. -/
theorem c6_witness :
    (([⟨"a", 0⟩, ⟨"b", 86400000⟩] : List Commit) ≠ [] ∧
        ∀ c ∈ ([⟨"a", 0⟩, ⟨"b", 86400000⟩] : List Commit), c.date ≤ 86400000) ∧
      (((foldDates [⟨"a", 0⟩, ⟨"b", 86400000⟩] (86400000, 0)).1 ∈
            ([⟨"a", 0⟩, ⟨"b", 86400000⟩] : List Commit).map Commit.date ∧
          ∀ d ∈ ([⟨"a", 0⟩, ⟨"b", 86400000⟩] : List Commit).map Commit.date,
            (foldDates [⟨"a", 0⟩, ⟨"b", 86400000⟩] (86400000, 0)).1 ≤ d) ∧
        ((foldDates [⟨"a", 0⟩, ⟨"b", 86400000⟩] (86400000, 0)).2 ∈
            ([⟨"a", 0⟩, ⟨"b", 86400000⟩] : List Commit).map Commit.date ∧
          ∀ d ∈ ([⟨"a", 0⟩, ⟨"b", 86400000⟩] : List Commit).map Commit.date,
            d ≤ (foldDates [⟨"a", 0⟩, ⟨"b", 86400000⟩] (86400000, 0)).2) ∧
        getFormattedVersionMessage 86400000 "1.2.4" [⟨"a", 0⟩, ⟨"b", 86400000⟩] =
          "- " ++ "1.2.4" ++ " [ " ++
            isoDateOfMillis (foldDates [⟨"a", 0⟩, ⟨"b", 86400000⟩] (86400000, 0)).1 ++
            " – " ++
            isoDateOfMillis (foldDates [⟨"a", 0⟩, ⟨"b", 86400000⟩] (86400000, 0)).2 ++
            " ]" ++ "\n" ++
            String.intercalate "\n"
              (([⟨"a", 0⟩, ⟨"b", 86400000⟩] : List Commit).map
                (fun c => "    -" ++ c.message))) :=
  ⟨⟨by decide, by decide⟩,
    c6_amended_format 86400000 "1.2.4" [⟨"a", 0⟩, ⟨"b", 86400000⟩]
      (by decide) (by decide)⟩

/-- C10 witness at a concrete separator-free content. -/
theorem c10_witness :
    firstIdx nl2 ("abc" : String).data = none ∧
      mergeChangelog "abc" "X" =
        String.mk (("abc" : String).data.take 1) ++ "X" ++
          String.mk (("abc" : String).data.drop 1) :=
  ⟨by decide, c10_no_separator_split_at_one "abc" "X" (by decide)⟩

/-! ## Claims C2 and C9 (candidate versions) -/

/-- C2 (counterexample): at the unparseable current version `abc`, step 3
does not fail: `promptNewVersion` returns normally (`Except.ok`) — the five
presented candidates are all `null` and the operator's resulting selection is
`null`. No `InvalidVersionError` (nor any other error) is raised. -/
theorem c2_counterexample_no_failure :
    promptNewVersion { envDemo with chooseVersion := fun choices => choices.headD none }
        "abc" = ([], Except.ok none) := by
  rfl

/-- C2 (amended): for every current-version string that does not parse as a
valid semantic version, step 3 raises no error and produces no candidate
versions: `semver.inc` returns `null` for every bump kind, so all five
candidates are `null`. -/
theorem c2_amended_invalid_version_null_candidates (s : String)
    (h : parseSemVer s = none) :
    proposeNextVersions s = ⟨none, none, none, none, none⟩ := by
  simp [proposeNextVersions, semverIncWith, h]

/-- C2 witness at the unparseable version `abc`. -/
theorem c2_witness :
    parseSemVer "abc" = none ∧
      proposeNextVersions "abc" = ⟨none, none, none, none, none⟩ :=
  ⟨by rfl, c2_amended_invalid_version_null_candidates "abc" (by rfl)⟩

theorem natCmp_self (a : Nat) : natCmp a a = Ordering.eq := by
  simp [natCmp]

theorem natCmp_lt_of_lt {a b : Nat} (h : a < b) : natCmp a b = Ordering.lt := by
  simp [natCmp, h]

theorem cmpPre_ne_nil {l : List PreId} (h : l ≠ []) : cmpPre l [] = Ordering.lt := by
  cases l with
  | nil => exact absurd rfl h
  | cons a as => rfl

theorem ltSemVer_incPatch (v : SemVer) : ltSemVer v (incPatch v) := by
  unfold ltSemVer compareSemVer compareMain incPatch
  by_cases h : v.prerelease = []
  · simp [h, natCmp_self, natCmp_lt_of_lt (Nat.lt_succ_self v.patch), Ordering.then]
  · simp [h, natCmp_self, Ordering.then, cmpPre_ne_nil h]

theorem ltSemVer_incMinor (v : SemVer) : ltSemVer v (incMinor v) := by
  unfold ltSemVer compareSemVer compareMain incMinor
  by_cases h : v.patch ≠ 0 ∨ v.prerelease = []
  · simp [h, natCmp_self, natCmp_lt_of_lt (Nat.lt_succ_self v.minor), Ordering.then]
  · push_neg at h
    obtain ⟨hp, hpre⟩ := h
    simp [hp, hpre, natCmp_self, Ordering.then, cmpPre_ne_nil hpre]

theorem ltSemVer_incMajor (v : SemVer) : ltSemVer v (incMajor v) := by
  unfold ltSemVer compareSemVer compareMain incMajor
  by_cases h : v.minor ≠ 0 ∨ v.patch ≠ 0 ∨ v.prerelease = []
  · simp [h, natCmp_self, natCmp_lt_of_lt (Nat.lt_succ_self v.major), Ordering.then]
  · push_neg at h
    obtain ⟨hm, hp, hpre⟩ := h
    simp [hm, hp, hpre, natCmp_self, Ordering.then, cmpPre_ne_nil hpre]

theorem ltSemVer_incPrerelease (id : String) (v : SemVer)
    (h : v.prerelease = []) : ltSemVer v (incPrerelease id v) := by
  unfold ltSemVer compareSemVer compareMain incPrerelease incPatch
  simp [h, natCmp_self, natCmp_lt_of_lt (Nat.lt_succ_self v.patch), Ordering.then]

/-- C9 (counterexample): at the valid current version `1.2.3-beta.0` the
prerelease-alpha candidate is `1.2.3-alpha.0`, which orders strictly BELOW
the current version under semantic-version precedence — so not every
candidate strictly exceeds the current version. -/
theorem c9_counterexample_prerelease_alpha :
    (proposeNextVersions "1.2.3-beta.0").nextAlpha = some "1.2.3-alpha.0" ∧
      parseSemVer "1.2.3-beta.0" = some ⟨1, 2, 3, [PreId.str "beta", PreId.num 0]⟩ ∧
      parseSemVer "1.2.3-alpha.0" = some ⟨1, 2, 3, [PreId.str "alpha", PreId.num 0]⟩ ∧
      compareSemVer ⟨1, 2, 3, [PreId.str "beta", PreId.num 0]⟩
          ⟨1, 2, 3, [PreId.str "alpha", PreId.num 0]⟩ = Ordering.gt :=
  ⟨by rfl, by rfl, by rfl, by rfl⟩

/-- C9 (amended): for every current version that parses, the patch, minor
and major candidates of `proposeNextVersions` strictly exceed it under
semantic-version precedence, and the prerelease-alpha/beta candidates
strictly exceed it whenever the current version has no prerelease component
(when it has one, they can order below it, as the counterexample shows). -/
theorem c9_amended_monotonic (s : String) (v : SemVer)
    (h : parseSemVer s = some v) :
    ((proposeNextVersions s).nextPatch = some (renderSemVer (incPatch v)) ∧
        ltSemVer v (incPatch v)) ∧
      ((proposeNextVersions s).nextFeature = some (renderSemVer (incMinor v)) ∧
        ltSemVer v (incMinor v)) ∧
      ((proposeNextVersions s).nextMajor = some (renderSemVer (incMajor v)) ∧
        ltSemVer v (incMajor v)) ∧
      (v.prerelease = [] →
        ((proposeNextVersions s).nextAlpha =
            some (renderSemVer (incPrerelease "alpha" v)) ∧
          ltSemVer v (incPrerelease "alpha" v)) ∧
        ((proposeNextVersions s).nextBeta =
            some (renderSemVer (incPrerelease "beta" v)) ∧
          ltSemVer v (incPrerelease "beta" v))) := by
  refine ⟨⟨?_, ltSemVer_incPatch v⟩, ⟨?_, ltSemVer_incMinor v⟩,
    ⟨?_, ltSemVer_incMajor v⟩, fun hpre => ⟨⟨?_, ltSemVer_incPrerelease "alpha" v hpre⟩,
      ⟨?_, ltSemVer_incPrerelease "beta" v hpre⟩⟩⟩ <;>
    simp [proposeNextVersions, semverIncWith, h]

/-- C9 witness at the release version `1.2.3`. -/
theorem c9_witness :
    parseSemVer "1.2.3" = some ⟨1, 2, 3, []⟩ ∧
      (((proposeNextVersions "1.2.3").nextPatch =
            some (renderSemVer (incPatch ⟨1, 2, 3, []⟩)) ∧
          ltSemVer ⟨1, 2, 3, []⟩ (incPatch ⟨1, 2, 3, []⟩)) ∧
        ((proposeNextVersions "1.2.3").nextFeature =
            some (renderSemVer (incMinor ⟨1, 2, 3, []⟩)) ∧
          ltSemVer ⟨1, 2, 3, []⟩ (incMinor ⟨1, 2, 3, []⟩)) ∧
        ((proposeNextVersions "1.2.3").nextMajor =
            some (renderSemVer (incMajor ⟨1, 2, 3, []⟩)) ∧
          ltSemVer ⟨1, 2, 3, []⟩ (incMajor ⟨1, 2, 3, []⟩)) ∧
        (SemVer.prerelease ⟨1, 2, 3, []⟩ = [] →
          ((proposeNextVersions "1.2.3").nextAlpha =
              some (renderSemVer (incPrerelease "alpha" ⟨1, 2, 3, []⟩)) ∧
            ltSemVer ⟨1, 2, 3, []⟩ (incPrerelease "alpha" ⟨1, 2, 3, []⟩)) ∧
          ((proposeNextVersions "1.2.3").nextBeta =
              some (renderSemVer (incPrerelease "beta" ⟨1, 2, 3, []⟩)) ∧
            ltSemVer ⟨1, 2, 3, []⟩ (incPrerelease "beta" ⟨1, 2, 3, []⟩)))) :=
  ⟨by rfl, c9_amended_monotonic "1.2.3" ⟨1, 2, 3, []⟩ (by rfl)⟩

/-! ## Claims C4, C5, C7, C8 (the `create` pipeline) -/

theorem seqE_effects_mem {α β : Type} {x : List Eff × Except Stop α}
    {f : α → List Eff × Except Stop β} {e : Eff}
    (he : e ∈ (seqE x f).1) : e ∈ x.1 ∨ ∃ a, e ∈ (f a).1 := by
  rcases x with ⟨effs, r⟩
  cases r with
  | ok a =>
    simp only [seqE, List.mem_append] at he
    rcases he with h | h
    · exact Or.inl h
    · exact Or.inr ⟨a, h⟩
  | error s => exact Or.inl he

theorem checkForUncommittedChanges_dry_pure {env : Env} {o : Opts}
    (hdry : o.dry_run = true) :
    ∀ e ∈ (checkForUncommittedChanges env o).1, isMutating e = false := by
  intro e he
  unfold checkForUncommittedChanges at he
  simp only [hdry, if_true] at he
  split at he <;> simp_all [isMutating]

theorem getVersionFromFile_effects (env : Env) : (getVersionFromFile env).1 = [] := by
  cases h : env.versionFileContent <;> simp [getVersionFromFile, h]

theorem updateChangeLog_dry_pure {env : Env} {o : Opts} (hdry : o.dry_run = true)
    (msg : String) :
    ∀ e ∈ (updateChangeLog env o msg).1, isMutating e = false := by
  intro e he
  unfold updateChangeLog at he
  rcases h : env.changelogContent with _ | cc
  · rw [h] at he
    simp at he
  · rw [h] at he
    simp only [hdry, if_true, List.mem_singleton] at he
    subst he
    rfl

theorem saveVersionToFile_dry_pure {o : Opts} (hdry : o.dry_run = true)
    (version : Option String) :
    ∀ e ∈ (saveVersionToFile o version).1, isMutating e = false := by
  intro e he
  unfold saveVersionToFile at he
  simp only [hdry, if_true, List.mem_singleton] at he
  subst he
  rfl

theorem commitAndTagVersion_dry_pure {o : Opts} (hdry : o.dry_run = true)
    (version : Option String) :
    ∀ e ∈ (commitAndTagVersion o version).1, isMutating e = false := by
  intro e he
  unfold commitAndTagVersion at he
  simp only [hdry, if_true, List.mem_singleton] at he
  subst he
  rfl

theorem pushToRemote_dry_pure {env : Env} {o : Opts} (hdry : o.dry_run = true) :
    ∀ e ∈ (pushToRemote env o).1, isMutating e = false := by
  intro e he
  unfold pushToRemote at he
  split at he
  · simp at he
  · split at he
    · simp only [hdry, if_true, List.mem_cons, List.mem_flatten, List.mem_map] at he
      rcases he with rfl | ⟨l, ⟨r, _, rfl⟩, hl⟩
      · rfl
      · simp only [List.mem_singleton] at hl
        subst hl
        rfl
    · simp only [List.mem_singleton] at he
      subst he
      rfl

theorem autoStash_dry_pure {env : Env} {o : Opts} (hdry : o.dry_run = true) :
    ∀ e ∈ (autoStash env o).1, isMutating e = false := by
  intro e he
  unfold autoStash at he
  simp only [hdry, if_true, List.mem_singleton] at he
  subst he
  rfl

theorem createBody_dry_pure (env : Env) (o : Opts) (hdry : o.dry_run = true) :
    ∀ e ∈ (createBody env o).1, isMutating e = false := by
  intro e he
  unfold createBody at he
  rcases seqE_effects_mem he with h | ⟨cv, h⟩
  · exact checkForUncommittedChanges_dry_pure hdry e h
  rcases seqE_effects_mem h with h | ⟨a, h⟩
  · rw [getVersionFromFile_effects] at h
    simp at h
  rcases seqE_effects_mem h with h | ⟨nv, h⟩
  · simp [promptNewVersion] at h
  rcases seqE_effects_mem h with h | ⟨ms, h⟩
  · simp [getFormattedVersionMessageM] at h
  rcases seqE_effects_mem h with h | ⟨mf, h⟩
  · simp [promptEditMessages] at h
  rcases seqE_effects_mem h with h | ⟨u1, h⟩
  · exact updateChangeLog_dry_pure hdry _ e h
  rcases seqE_effects_mem h with h | ⟨u2, h⟩
  · exact saveVersionToFile_dry_pure hdry _ e h
  rcases seqE_effects_mem h with h | ⟨u3, h⟩
  · exact commitAndTagVersion_dry_pure hdry _ e h
  rcases seqE_effects_mem h with h | ⟨u4, h⟩
  · exact pushToRemote_dry_pure hdry e h
  simp only [List.mem_singleton] at h
  subst h
  rfl

/-- C4: in dry-run mode, regardless of operator choices and collaborator
data, no effect of the whole run mutates anything: no write to the Version
Store or the Changelog Store, and no staging, commit, tag, stash or push. -/
theorem c4_dry_run_no_mutation (env : Env) (o : Opts) (hdry : o.dry_run = true) :
    ∀ e ∈ (create env o).1, isMutating e = false := by
  intro e he
  unfold create at he
  split at he
  · rename_i effs u heq
    exact createBody_dry_pure env o hdry e (by rw [heq]; exact he)
  · rename_i effs n heq
    exact createBody_dry_pure env o hdry e (by rw [heq]; exact he)
  · rename_i effs err heq
    simp only [List.mem_append] at he
    rcases he with (he | he) | he
    · exact createBody_dry_pure env o hdry e (by rw [heq]; exact he)
    · exact autoStash_dry_pure hdry e he
    · simp only [List.mem_singleton] at he
      subst he
      rfl

/-- C4 witness: a concrete dry run. -/
theorem c4_witness :
    ({ options_default with dry_run := true } : Opts).dry_run = true ∧
      ∀ e ∈ (create envDemo { options_default with dry_run := true }).1,
        isMutating e = false :=
  ⟨rfl, c4_dry_run_no_mutation envDemo { options_default with dry_run := true } rfl⟩

/-- C5: (a) every error thrown after the precondition check is caught
exactly once at the top level of `create`: the run ends in the
`Outcome.failed` state (never an uncaught exception), the auto-stash
recovery action always runs first (`git stash` outside dry-run, its report
under dry-run), and the error is then reported as text; (b) in particular,
with zero configured remotes (and readable files, a clean tree, and an
operator who selects a presented version) the run ends in the failed state
with `NoRemotesError`. -/
theorem c5_error_caught_and_recovered (env : Env) (o : Opts) :
    (∀ effs e, createBody env o = (effs, Except.error (Stop.threw e)) →
        create env o =
          (effs ++ (autoStash env o).1 ++ [Eff.consoleError ("Error: " ++ errMessage e)],
            Outcome.failed e) ∧
        (o.dry_run = false → Eff.gitStash ∈ (create env o).1) ∧
        (o.dry_run = true →
          Eff.consoleLog "Dry run: Uncommitted changes would be stashed." ∈
            (create env o).1)) ∧
      (env.statusFiles = [] → env.versionFileContent.isSome = true →
        env.changelogContent.isSome = true →
        (∀ l, (env.chooseVersion l).isSome = true) → env.remotes = [] →
        (create env o).2 = Outcome.failed Err.noRemotes) := by
  constructor
  · intro effs e heq
    have hcr : create env o =
        (effs ++ (autoStash env o).1 ++ [Eff.consoleError ("Error: " ++ errMessage e)],
          Outcome.failed e) := by
      unfold create
      rw [heq]
    refine ⟨hcr, ?_, ?_⟩
    · intro hdry
      rw [hcr]
      simp [autoStash, hdry]
    · intro hdry
      rw [hcr]
      simp [autoStash, hdry]
  · intro hs hv hc hch hr
    obtain ⟨vc, hvc⟩ := Option.isSome_iff_exists.mp hv
    obtain ⟨cc, hcc⟩ := Option.isSome_iff_exists.mp hc
    obtain ⟨nv, hnv⟩ := Option.isSome_iff_exists.mp
      (hch (nextVersionChoices (proposeNextVersions (String.mk (jsTrimChars vc.data)))))
    cases hdry : o.dry_run <;>
      simp [create, createBody, seqE, checkForUncommittedChanges, hs,
        getVersionFromFile, hvc, promptNewVersion, hnv, getFormattedVersionMessageM,
        promptEditMessages, updateChangeLog, hcc, saveVersionToFile,
        commitAndTagVersion, pushToRemote, hr, hdry]

/-- C5 witness: zero remotes, otherwise normal inputs, ends failed with
`NoRemotesError`. -/
theorem c5_witness :
    ({ envDemo with remotes := [], chooseVersion := fun _ => some "1.2.4" } : Env).remotes
        = [] ∧
      (create { envDemo with remotes := [], chooseVersion := fun _ => some "1.2.4" }
          options_default).2 = Outcome.failed Err.noRemotes :=
  ⟨rfl,
    (c5_error_caught_and_recovered
        { envDemo with remotes := [], chooseVersion := fun _ => some "1.2.4" }
        options_default).2 rfl rfl rfl (fun _ => rfl) rfl⟩

/-- C7: outside dry-run, when the run reaches the push step (clean tree,
readable files, an operator-selected version, at least one remote) and the
operator declines the push confirmation, the run ends in the failed state
with `PushCancelledError`, while the commit and tag effects of step 8 have
already been performed and are never rolled back. -/
theorem c7_push_declined_failed_state (env : Env) (o : Opts)
    (hdry : o.dry_run = false) (hs : env.statusFiles = [])
    (vc cc nv : String)
    (hvc : env.versionFileContent = some vc)
    (hcc : env.changelogContent = some cc)
    (hnv : env.chooseVersion
        (nextVersionChoices (proposeNextVersions (String.mk (jsTrimChars vc.data)))) =
      some nv)
    (hr : env.remotes ≠ []) (hcf : env.confirmPush = false) :
    (create env o).2 = Outcome.failed Err.pushCancelled ∧
      Eff.gitCommit ("version " ++ nv) ∈ (create env o).1 ∧
      Eff.gitTag nv ∈ (create env o).1 := by
  have hbody : createBody env o =
      ([Eff.writeFile o.file_changelog
          (mergeChangelog cc
            (env.editMessage
              (getFormattedVersionMessage env.now nv (commitsForLog env)))),
        Eff.writeFile o.file_version nv,
        Eff.gitAdd ".", Eff.gitCommit ("version " ++ nv), Eff.gitTag nv,
        Eff.consoleLog env.diffText],
        Except.error (Stop.threw Err.pushCancelled)) := by
    simp [createBody, seqE, checkForUncommittedChanges, hs, getVersionFromFile, hvc,
      promptNewVersion, hnv, getFormattedVersionMessageM, promptEditMessages,
      updateChangeLog, hcc, saveVersionToFile, commitAndTagVersion, pushToRemote, hr,
      hcf, hdry, jsStr]
  refine ⟨?_, ?_, ?_⟩ <;> unfold create <;> rw [hbody] <;> simp

/-- C7 witness: the demo environment with the confirmation declined. -/
theorem c7_witness :
    ({ envDemo with confirmPush := false } : Env).confirmPush = false ∧
      (create { envDemo with confirmPush := false } options_default).2 =
          Outcome.failed Err.pushCancelled ∧
        Eff.gitCommit ("version " ++ "1.2.4") ∈
          (create { envDemo with confirmPush := false } options_default).1 ∧
        Eff.gitTag "1.2.4" ∈
          (create { envDemo with confirmPush := false } options_default).1 :=
  ⟨rfl,
    c7_push_declined_failed_state { envDemo with confirmPush := false } options_default
      rfl rfl "1.2.3" "# Title\n\nOld entry\n" "1.2.4" rfl rfl (by rfl) (by simp [envDemo]) rfl⟩

/-- C8: (a) with at least one changed file outside dry-run, the process
terminates with exit status 1 before any other step runs — the run's only
effect is the error report; (b) with zero changed files the precondition
check does not abort the run, in dry-run and non-dry-run mode alike. -/
theorem c8_uncommitted_changes_policy (env : Env) (o : Opts) :
    (env.statusFiles ≠ [] → o.dry_run = false →
        create env o =
          ([Eff.consoleError
              "Error: There are uncommitted changes. Please commit or stash them before running this script."],
            Outcome.exited 1)) ∧
      (env.statusFiles = [] → checkForUncommittedChanges env o = ([], Except.ok ())) := by
  constructor
  · intro hne hdry
    have hlen : env.statusFiles.length ≠ 0 := by
      simpa [List.length_eq_zero] using hne
    have hcheck : checkForUncommittedChanges env o =
        ([Eff.consoleError
            "Error: There are uncommitted changes. Please commit or stash them before running this script."],
          Except.error (Stop.exited 1)) := by
      unfold checkForUncommittedChanges
      rw [if_pos hlen, hdry]
      simp
    unfold create createBody
    rw [hcheck]
    simp [seqE]
  · intro hs
    unfold checkForUncommittedChanges
    rw [hs]
    simp

/-- C8 witness: a dirty tree outside dry-run exits with status 1; a clean
tree passes the check. -/
theorem c8_witness :
    (({ envDemo with statusFiles := ["a"] } : Env).statusFiles ≠ [] ∧
        create { envDemo with statusFiles := ["a"] } options_default =
          ([Eff.consoleError
              "Error: There are uncommitted changes. Please commit or stash them before running this script."],
            Outcome.exited 1)) ∧
      (envDemo.statusFiles = [] ∧
        checkForUncommittedChanges envDemo options_default = ([], Except.ok ())) :=
  ⟨⟨by simp,
      (c8_uncommitted_changes_policy { envDemo with statusFiles := ["a"] }
          options_default).1 (by simp) rfl⟩,
    ⟨rfl, (c8_uncommitted_changes_policy envDemo options_default).2 rfl⟩⟩
